import Mathlib

/-!
Verification of the Verlet-ring soft-body and angle-constrained IK solver
(`src/game/soft-body-proc-anim-main/Blob.ts` and `Limb.ts`).

The program's 2D float vectors are modelled over `ℝ` by the value type `Vec`
below, mirroring the operations of `Phaser.Math.Vector2` that the solver uses
(`add`, `subtract`, `scale`, `length`, `angle`, `rotate`, `setLength`,
`Phaser.Math.Clamp`, `Phaser.Math.Distance.Between`).  Scene-derived inputs
(world width/height, the optional pointer position in world space) are passed
as explicit parameters, as in the specification's interface description; the
bodies of the functions follow the TypeScript sources statement by statement.
-/

open Real

noncomputable section

open scoped Classical

/-- Planar vector value type (the solver-facing fragment of `Phaser.Math.Vector2`). -/
@[ext]
structure Vec where
  x : ℝ
  y : ℝ

instance : Add Vec := ⟨fun a b => ⟨a.x + b.x, a.y + b.y⟩⟩

instance : Sub Vec := ⟨fun a b => ⟨a.x - b.x, a.y - b.y⟩⟩

instance : Neg Vec := ⟨fun a => ⟨-a.x, -a.y⟩⟩

instance : SMul ℝ Vec := ⟨fun s a => ⟨s * a.x, s * a.y⟩⟩

instance : Zero Vec := ⟨⟨0, 0⟩⟩

@[simp] lemma Vec.add_x (a b : Vec) : (a + b).x = a.x + b.x := rfl

@[simp] lemma Vec.add_y (a b : Vec) : (a + b).y = a.y + b.y := rfl

@[simp] lemma Vec.sub_x (a b : Vec) : (a - b).x = a.x - b.x := rfl

@[simp] lemma Vec.sub_y (a b : Vec) : (a - b).y = a.y - b.y := rfl

@[simp] lemma Vec.smul_x (s : ℝ) (a : Vec) : (s • a).x = s * a.x := rfl

@[simp] lemma Vec.smul_y (s : ℝ) (a : Vec) : (s • a).y = s * a.y := rfl

@[simp] lemma Vec.zero_x : (0 : Vec).x = 0 := rfl

@[simp] lemma Vec.zero_y : (0 : Vec).y = 0 := rfl

@[simp] lemma Vec.mk_x (a b : ℝ) : (Vec.mk a b).x = a := rfl

@[simp] lemma Vec.mk_y (a b : ℝ) : (Vec.mk a b).y = b := rfl

/-- Phaser `Vector2.length()`. -/
def Vec.length (v : Vec) : ℝ := Real.sqrt (v.x ^ 2 + v.y ^ 2)

/-- Phaser `Math.Distance.Between(x1, y1, x2, y2)`. -/
def Vec.dist (a b : Vec) : ℝ := Real.sqrt ((a.x - b.x) ^ 2 + (a.y - b.y) ^ 2)

/-- Phaser `Vector2.setLength(len)` = `normalize().scale(len)`; a zero vector is left
unchanged by `normalize` and hence the result is the zero vector. -/
def Vec.setLength (v : Vec) (len : ℝ) : Vec :=
  if v.length = 0 then v else (len / v.length) • v

/-- Phaser `Vector2.rotate(delta)`. -/
def Vec.rotate (v : Vec) (delta : ℝ) : Vec :=
  ⟨v.x * Real.cos delta - v.y * Real.sin delta,
   v.x * Real.sin delta + v.y * Real.cos delta⟩

/-- Phaser `Vector2.angle()`: `Math.atan2(y, x)` pushed into `[0, 2π)` by adding `2π`
to negative results.  `Math.atan2 y x` is `Complex.arg ⟨x, y⟩`. -/
def Vec.angle (v : Vec) : ℝ :=
  if Complex.arg ⟨v.x, v.y⟩ < 0 then Complex.arg ⟨v.x, v.y⟩ + 2 * π
  else Complex.arg ⟨v.x, v.y⟩

/-- Phaser `Math.Clamp(value, min, max)` = `Math.max(min, Math.min(max, value))`. -/
def clampR (value lo hi : ℝ) : ℝ := max lo (min hi value)

lemma Vec.length_nonneg (v : Vec) : 0 ≤ v.length := Real.sqrt_nonneg _

lemma Vec.length_eq_zero (v : Vec) (h : v.length = 0) : v = 0 := by
  unfold Vec.length at h
  have hx : v.x ^ 2 + v.y ^ 2 = 0 := by
    have h0 : (0:ℝ) ≤ v.x ^ 2 + v.y ^ 2 := by positivity
    have := Real.sqrt_eq_zero h0 |>.mp h
    exact this
  have hx1 : v.x = 0 := by nlinarith [sq_nonneg v.x, sq_nonneg v.y]
  have hy1 : v.y = 0 := by nlinarith [sq_nonneg v.x, sq_nonneg v.y]
  ext <;> simp [hx1, hy1]

lemma Vec.length_smul (s : ℝ) (v : Vec) : (s • v).length = |s| * v.length := by
  unfold Vec.length
  rw [show (s • v).x ^ 2 + (s • v).y ^ 2 = s ^ 2 * (v.x ^ 2 + v.y ^ 2) by
        simp; ring,
      Real.sqrt_mul (sq_nonneg s), Real.sqrt_sq_eq_abs]

lemma Vec.setLength_length (v : Vec) (len : ℝ) (hv : v.length ≠ 0) (hl : 0 ≤ len) :
    (v.setLength len).length = len := by
  unfold Vec.setLength
  rw [if_neg hv, Vec.length_smul]
  have hpos : 0 < v.length := lt_of_le_of_ne (Vec.length_nonneg v) (Ne.symm hv)
  rw [abs_of_nonneg (by positivity)]
  field_simp

lemma Vec.dist_eq_length (a b : Vec) : Vec.dist a b = (a - b).length := rfl

lemma Vec.dist_add_right (q u : Vec) : Vec.dist (q + u) q = u.length := by
  unfold Vec.dist Vec.length
  simp

/-! Angle utilities from `Limb.ts`. -/

/-- Function `simplifyAngle(angle)` (`Limb.ts` lines 4–9): the two while-loops reduce
the argument into `[0, 2π)` by adding or subtracting multiples of `2π`; the
result is the modular reduction `angle - 2π⌊angle/(2π)⌋`. -/
def simplifyAngle (angle : ℝ) : ℝ := angle - 2 * π * ⌊angle / (2 * π)⌋

/-- Function `relativeAngleDiff(angle, anchor)` (`Limb.ts` lines 11–16). -/
def relativeAngleDiff (angle anchor : ℝ) : ℝ :=
  π - simplifyAngle (angle + π - anchor)

/-- Function `constrainAngle(angle, anchor, constraint)` (`Limb.ts` lines 18–32). -/
def constrainAngle (angle anchor constraint : ℝ) : ℝ :=
  if |relativeAngleDiff angle anchor| ≤ constraint then simplifyAngle angle
  else if relativeAngleDiff angle anchor > constraint then
    simplifyAngle (anchor - constraint)
  else simplifyAngle (anchor + constraint)

lemma simplifyAngle_nonneg (a : ℝ) : 0 ≤ simplifyAngle a := by
  unfold simplifyAngle
  have h := Int.floor_le (a / (2 * π))
  have h2 := Real.two_pi_pos
  have h3 : 2 * π * (⌊a / (2 * π)⌋ : ℝ) ≤ 2 * π * (a / (2 * π)) :=
    mul_le_mul_of_nonneg_left h (le_of_lt h2)
  have h4 : 2 * π * (a / (2 * π)) = a := by field_simp
  linarith

lemma simplifyAngle_lt_two_pi (a : ℝ) : simplifyAngle a < 2 * π := by
  unfold simplifyAngle
  have h := Int.lt_floor_add_one (a / (2 * π))
  have h2 := Real.two_pi_pos
  have h3 : 2 * π * (a / (2 * π)) < 2 * π * ((⌊a / (2 * π)⌋ : ℝ) + 1) :=
    (mul_lt_mul_left h2).mpr h
  have h4 : 2 * π * (a / (2 * π)) = a := by field_simp
  linarith

/-- Reduction `simplifyAngle a` differs from `a` by an integer multiple of `2π`. -/
lemma simplifyAngle_spec (a : ℝ) : ∃ k : ℤ, simplifyAngle a = a - 2 * π * k :=
  ⟨⌊a / (2 * π)⌋, rfl⟩

/-- The value in `[0, 2π)` congruent to `a` mod `2π` is `simplifyAngle a`. -/
lemma simplifyAngle_eq_of (a x : ℝ) (k : ℤ) (hx : x = a - 2 * π * k)
    (h0 : 0 ≤ x) (h2 : x < 2 * π) : simplifyAngle a = x := by
  have hpi := Real.two_pi_pos
  have hk : ⌊a / (2 * π)⌋ = k := by
    rw [Int.floor_eq_iff]
    constructor
    · rw [le_div_iff₀ hpi]; linarith
    · rw [div_lt_iff₀ hpi]; linarith
  unfold simplifyAngle
  rw [hk]; linarith

lemma relativeAngleDiff_mem (a b : ℝ) :
    -π < relativeAngleDiff a b ∧ relativeAngleDiff a b ≤ π := by
  unfold relativeAngleDiff
  have h1 := simplifyAngle_nonneg (a + π - b)
  have h2 := simplifyAngle_lt_two_pi (a + π - b)
  constructor <;> linarith

/-- Difference `relativeAngleDiff angle anchor` is congruent to `anchor - angle` mod `2π`. -/
lemma relativeAngleDiff_spec (a b : ℝ) :
    ∃ k : ℤ, relativeAngleDiff a b = b - a + 2 * π * k := by
  obtain ⟨k, hk⟩ := simplifyAngle_spec (a + π - b)
  exact ⟨k, by unfold relativeAngleDiff; rw [hk]; ring⟩

/-- The value in `(-π, π]` congruent to `b - a` mod `2π` is
`relativeAngleDiff a b`. -/
lemma relativeAngleDiff_eq_of (a b t : ℝ) (k : ℤ) (ht : t = b - a + 2 * π * k)
    (h1 : -π < t) (h2 : t ≤ π) : relativeAngleDiff a b = t := by
  unfold relativeAngleDiff
  have h : simplifyAngle (a + π - b) = π - t := by
    apply simplifyAngle_eq_of _ _ k
    · linarith
    · linarith
    · linarith
  rw [h]; ring

/-- Claim C5: for an angle whose shortest signed angular offset from the
anchor has absolute value at most `range`, `constrainAngle` returns the angle
reduced modulo `2π`; otherwise it returns exactly one of the two reduced
boundary angles `anchor ∓ range`, and that boundary is the one nearer
(in circular distance) to the input angle. -/
theorem claim5_angle_clamp (angle anchor range : ℝ) (hr : 0 ≤ range) :
    (|relativeAngleDiff angle anchor| ≤ range →
      constrainAngle angle anchor range = simplifyAngle angle) ∧
    (range < |relativeAngleDiff angle anchor| →
      ((constrainAngle angle anchor range = simplifyAngle (anchor - range) ∨
        constrainAngle angle anchor range = simplifyAngle (anchor + range)) ∧
       |relativeAngleDiff angle (constrainAngle angle anchor range)| =
         min |relativeAngleDiff angle (simplifyAngle (anchor - range))|
             |relativeAngleDiff angle (simplifyAngle (anchor + range))|)) := by
  constructor
  · intro h
    unfold constrainAngle
    rw [if_pos h]
  · intro h
    have hne : ¬ |relativeAngleDiff angle anchor| ≤ range := not_le.mpr h
    obtain ⟨k, hk⟩ := relativeAngleDiff_spec angle anchor
    obtain ⟨hdl, hdu⟩ := relativeAngleDiff_mem angle anchor
    obtain ⟨m1, hm1⟩ := simplifyAngle_spec (anchor - range)
    obtain ⟨m2, hm2⟩ := simplifyAngle_spec (anchor + range)
    have habs : |relativeAngleDiff angle anchor| ≤ π :=
      abs_le.mpr ⟨le_of_lt hdl, hdu⟩
    have hrpi : range < π := lt_of_lt_of_le h habs
    have hpi := Real.pi_pos
    by_cases hcase : relativeAngleDiff angle anchor > range
    · -- the angle overshoots on the `anchor - range` side
      have hres : constrainAngle angle anchor range = simplifyAngle (anchor - range) := by
        unfold constrainAngle
        rw [if_neg hne, if_pos hcase]
      have hr1 : relativeAngleDiff angle (simplifyAngle (anchor - range)) =
          relativeAngleDiff angle anchor - range := by
        apply relativeAngleDiff_eq_of _ _ _ (k + m1)
        · push_cast; linarith
        · linarith
        · linarith
      by_cases hsum : relativeAngleDiff angle anchor + range ≤ π
      · have hr2 : relativeAngleDiff angle (simplifyAngle (anchor + range)) =
            relativeAngleDiff angle anchor + range := by
          apply relativeAngleDiff_eq_of _ _ _ (k + m2)
          · push_cast; linarith
          · linarith
          · linarith
        refine ⟨Or.inl hres, ?_⟩
        rw [hres, hr1, hr2, abs_of_nonneg (by linarith), abs_of_nonneg (by linarith),
          min_eq_left (by linarith)]
      · have hr2 : relativeAngleDiff angle (simplifyAngle (anchor + range)) =
            relativeAngleDiff angle anchor + range - 2 * π := by
          apply relativeAngleDiff_eq_of _ _ _ (k + m2 - 1)
          · push_cast; linarith
          · linarith
          · linarith
        refine ⟨Or.inl hres, ?_⟩
        rw [hres, hr1, hr2, abs_of_nonneg (by linarith), abs_of_nonpos (by linarith),
          min_eq_left (by linarith)]
    · -- the angle overshoots on the `anchor + range` side
      have hcase2 : relativeAngleDiff angle anchor < -range := by
        rcases abs_cases (relativeAngleDiff angle anchor) with ⟨he, _⟩ | ⟨he, _⟩
        · exact absurd (he ▸ h) (not_lt.mpr (le_of_not_lt hcase))
        · linarith [he ▸ h]
      have hres : constrainAngle angle anchor range = simplifyAngle (anchor + range) := by
        unfold constrainAngle
        rw [if_neg hne, if_neg hcase]
      have hr2 : relativeAngleDiff angle (simplifyAngle (anchor + range)) =
          relativeAngleDiff angle anchor + range := by
        apply relativeAngleDiff_eq_of _ _ _ (k + m2)
        · push_cast; linarith
        · linarith
        · linarith
      by_cases hdiff : -π < relativeAngleDiff angle anchor - range
      · have hr1 : relativeAngleDiff angle (simplifyAngle (anchor - range)) =
            relativeAngleDiff angle anchor - range := by
          apply relativeAngleDiff_eq_of _ _ _ (k + m1)
          · push_cast; linarith
          · linarith
          · linarith
        refine ⟨Or.inr hres, ?_⟩
        rw [hres, hr1, hr2, abs_of_nonpos (by linarith), abs_of_nonpos (by linarith),
          min_eq_right (by linarith)]
      · have hr1 : relativeAngleDiff angle (simplifyAngle (anchor - range)) =
            relativeAngleDiff angle anchor - range + 2 * π := by
          apply relativeAngleDiff_eq_of _ _ _ (k + m1 + 1)
          · push_cast; linarith
          · linarith
          · linarith
        refine ⟨Or.inr hres, ?_⟩
        rw [hres, hr1, hr2, abs_of_nonpos (by linarith), abs_of_nonneg (by linarith),
          min_eq_right (by linarith)]

/-- Witness for `claim5_angle_clamp` at `angle = π`, `anchor = 0`,
`range = π/2`, where the angle overshoots. -/
theorem claim5_angle_clamp_witness :
    (|relativeAngleDiff π 0| ≤ π / 2 →
      constrainAngle π 0 (π / 2) = simplifyAngle π) ∧
    ((constrainAngle π 0 (π / 2) = simplifyAngle (0 - π / 2) ∨
      constrainAngle π 0 (π / 2) = simplifyAngle (0 + π / 2)) ∧
     |relativeAngleDiff π (constrainAngle π 0 (π / 2))| =
       min |relativeAngleDiff π (simplifyAngle (0 - π / 2))|
           |relativeAngleDiff π (simplifyAngle (0 + π / 2))|) := by
  have hpi := Real.pi_pos
  have hr : (0:ℝ) ≤ π / 2 := by positivity
  have hd : relativeAngleDiff π 0 = π := by
    apply relativeAngleDiff_eq_of _ _ _ 1 (by push_cast; ring) (by linarith) le_rfl
  have hgt : π / 2 < |relativeAngleDiff π 0| := by
    rw [hd, abs_of_pos hpi]; linarith
  exact ⟨(claim5_angle_clamp π 0 (π / 2) hr).1,
    (claim5_angle_clamp π 0 (π / 2) hr).2 hgt⟩

/-! Types `LimbPoint` and `Limb` (`Limb.ts`). -/

/-- A joint of the two-bone IK chain (`Limb.ts` lines 34–76).  The `angle`
field starts at `0` and holds the most recently solved constrained angle. -/
structure LimbPoint where
  pos : Vec
  ppos : Vec
  angle : ℝ

/-- Method `LimbPoint.verletIntegrate(damping)`. -/
def LimbPoint.verletIntegrate (p : LimbPoint) (damping : ℝ) : LimbPoint :=
  { p with pos := p.pos + damping • (p.pos - p.ppos), ppos := p.pos }

/-- Method `LimbPoint.applyGravity(g)`. -/
def LimbPoint.applyGravity (p : LimbPoint) (g : ℝ) : LimbPoint :=
  { p with pos := ⟨p.pos.x, p.pos.y + g⟩ }

/-- Method `LimbPoint.applyConstraint(anchor, normal, distance, angleRange,
angleOffset)` (`Limb.ts` lines 51–66). -/
def LimbPoint.applyConstraint (p : LimbPoint) (anchor : Vec)
    (normal distance angleRange angleOffset : ℝ) : LimbPoint :=
  let anchorAngle := normal + angleOffset
  let curAngle := (anchor - p.pos).angle
  let a := constrainAngle curAngle anchorAngle angleRange
  let dir := (Vec.mk (Real.cos a) (Real.sin a)).setLength distance
  { p with angle := a, pos := anchor - dir }

/-- Method `LimbPoint.keepInBounds(width, height)`. -/
def LimbPoint.keepInBounds (p : LimbPoint) (width height : ℝ) : LimbPoint :=
  { p with pos := ⟨clampR p.pos.x 0 width, clampR p.pos.y 0 height⟩ }

/-- The limb: two joints plus construction-time parameters
(`Limb.ts` lines 78–105). -/
structure Limb where
  elbow : LimbPoint
  foot : LimbPoint
  distance : ℝ
  elbowRange : ℝ
  elbowOffset : ℝ
  footRange : ℝ
  footOffset : ℝ

/-- The `Limb` constructor (`Limb.ts` lines 88–105). -/
def Limb.construct (origin : Vec) (distance elbowRange elbowOffset
    footRange footOffset : ℝ) : Limb :=
  let elbowPos := origin + Vec.mk 0 distance
  { elbow := ⟨elbowPos, elbowPos, 0⟩
    foot := ⟨elbowPos + Vec.mk 0 distance, elbowPos + Vec.mk 0 distance, 0⟩
    distance := distance
    elbowRange := elbowRange
    elbowOffset := elbowOffset
    footRange := footRange
    footOffset := footOffset }

/-- The elbow of `Limb.resolve` after integration, gravity and the angle
constraint, before the world-bounds clamp (`Limb.ts` lines 115–123). -/
def Limb.resolveElbow (l : Limb) (anchor : Vec) (normal : ℝ) : LimbPoint :=
  (((l.elbow.verletIntegrate 0.95).applyGravity 1).applyConstraint
    anchor normal l.distance l.elbowRange l.elbowOffset)

/-- The foot of `Limb.resolve` after integration, gravity and the angle
constraint relative to the already clamped elbow, before its own
world-bounds clamp (`Limb.ts` lines 126–134). -/
def Limb.resolveFoot (l : Limb) (anchor : Vec) (normal width height : ℝ) :
    LimbPoint :=
  let e := (l.resolveElbow anchor normal).keepInBounds width height
  (((l.foot.verletIntegrate 0.95).applyGravity 1).applyConstraint
    e.pos e.angle l.distance l.footRange l.footOffset)

/-- Method `Limb.resolve(scene, anchor, normal)` (`Limb.ts` lines 107–136), with the
scene's `width`/`height` passed explicitly. -/
def Limb.resolve (l : Limb) (anchor : Vec) (normal width height : ℝ) : Limb :=
  { l with
    elbow := (l.resolveElbow anchor normal).keepInBounds width height
    foot := (l.resolveFoot anchor normal width height).keepInBounds width height }

/-- Membership of a vector in the world box `[0, w] × [0, h]`. -/
def inBox (w h : ℝ) (v : Vec) : Prop := 0 ≤ v.x ∧ v.x ≤ w ∧ 0 ≤ v.y ∧ v.y ≤ h

lemma clampR_eq_self (x lo hi : ℝ) (h0 : lo ≤ x) (h1 : x ≤ hi) :
    clampR x lo hi = x := by
  unfold clampR
  rw [min_eq_right h1, max_eq_right h0]

lemma clampR_mem (x hi : ℝ) (hhi : 0 ≤ hi) :
    0 ≤ clampR x 0 hi ∧ clampR x 0 hi ≤ hi := by
  unfold clampR
  exact ⟨le_max_left _ _, max_le hhi (min_le_left _ _)⟩

lemma LimbPoint.keepInBounds_of_inBox (p : LimbPoint) (w h : ℝ)
    (hp : inBox w h p.pos) : p.keepInBounds w h = p := by
  obtain ⟨h1, h2, h3, h4⟩ := hp
  unfold LimbPoint.keepInBounds
  rw [clampR_eq_self _ _ _ h1 h2, clampR_eq_self _ _ _ h3 h4]

@[simp] lemma unit_vec_length (a : ℝ) :
    (Vec.mk (Real.cos a) (Real.sin a)).length = 1 := by
  unfold Vec.length
  simp [Real.cos_sq_add_sin_sq]

/-- The position set by `applyConstraint` lies at exact distance `distance`
from the anchor (for a nonnegative distance). -/
lemma LimbPoint.applyConstraint_dist (p : LimbPoint) (anchor : Vec)
    (normal distance angleRange angleOffset : ℝ) (hd : 0 ≤ distance) :
    Vec.dist (p.applyConstraint anchor normal distance angleRange angleOffset).pos
      anchor = distance := by
  unfold LimbPoint.applyConstraint
  set a := constrainAngle ((anchor - p.pos).angle) (normal + angleOffset) angleRange
  have h1 : (Vec.mk (Real.cos a) (Real.sin a)).length = 1 := unit_vec_length a
  have hset : ((Vec.mk (Real.cos a) (Real.sin a)).setLength distance).length
      = distance := Vec.setLength_length _ _ (by rw [h1]; norm_num) hd
  simp only
  rw [Vec.dist_eq_length]
  have hv : anchor - ((Vec.mk (Real.cos a) (Real.sin a)).setLength distance) - anchor
      = (-1 : ℝ) • ((Vec.mk (Real.cos a) (Real.sin a)).setLength distance) := by
    ext <;> simp
  rw [hv, Vec.length_smul, hset]
  norm_num

/-- Claim C10: every value `constrainAngle` returns lies in `[0, 2π)`; hence
the `angle` stored by `applyConstraint` lies in `[0, 2π)`; and for the window
anchored at `0` with range `π/4` (which nominally spans negative angles) the
result always lies in `[0, π/4] ∪ [7π/4, 2π)`, never below zero. -/
theorem claim10_solved_angle_range :
    (∀ a anchor c : ℝ, 0 ≤ constrainAngle a anchor c ∧
      constrainAngle a anchor c < 2 * π) ∧
    (∀ (p : LimbPoint) (anchor : Vec) (normal d range off : ℝ),
      0 ≤ (p.applyConstraint anchor normal d range off).angle ∧
      (p.applyConstraint anchor normal d range off).angle < 2 * π) ∧
    (∀ a : ℝ, constrainAngle a 0 (π / 4) ∈
      Set.Icc 0 (π / 4) ∪ Set.Ico (7 * π / 4) (2 * π)) := by
  have hmain : ∀ a anchor c : ℝ, 0 ≤ constrainAngle a anchor c ∧
      constrainAngle a anchor c < 2 * π := by
    intro a anchor c
    unfold constrainAngle
    split_ifs <;>
      exact ⟨simplifyAngle_nonneg _, simplifyAngle_lt_two_pi _⟩
  refine ⟨hmain, ?_, ?_⟩
  · intro p anchor normal d range off
    have : (p.applyConstraint anchor normal d range off).angle =
        constrainAngle ((anchor - p.pos).angle) (normal + off) range := rfl
    rw [this]
    exact hmain _ _ _
  · intro a
    have hpi := Real.pi_pos
    by_cases h : |relativeAngleDiff a 0| ≤ π / 4
    · have hd := abs_le.mp h
      obtain ⟨k, hk⟩ := relativeAngleDiff_spec a 0
      unfold constrainAngle
      rw [if_pos h]
      rcases le_or_lt (relativeAngleDiff a 0) 0 with hneg | hpos
      · left
        have hs : simplifyAngle a = -(relativeAngleDiff a 0) := by
          apply simplifyAngle_eq_of _ _ k (by linarith) (by linarith) (by linarith)
        rw [hs]
        exact ⟨by linarith, by linarith [hd.1]⟩
      · right
        have hs : simplifyAngle a = -(relativeAngleDiff a 0) + 2 * π := by
          apply simplifyAngle_eq_of _ _ (k - 1) (by push_cast; linarith)
            (by linarith) (by linarith)
        rw [hs]
        constructor
        · linarith [hd.2]
        · linarith
    · unfold constrainAngle
      rw [if_neg h]
      by_cases h2 : relativeAngleDiff a 0 > π / 4
      · rw [if_pos h2]
        right
        have hs : simplifyAngle (0 - π / 4) = 7 * π / 4 := by
          apply simplifyAngle_eq_of _ _ (-1) (by push_cast; ring_nf)
            (by linarith) (by linarith)
        rw [hs]
        exact ⟨le_refl _, by linarith⟩
      · rw [if_neg h2]
        left
        have hs : simplifyAngle (0 + π / 4) = π / 4 := by
          apply simplifyAngle_eq_of _ _ 0 (by push_cast; ring)
            (by linarith) (by linarith)
        rw [hs]
        exact ⟨by linarith, le_refl _⟩

@[simp] lemma Vec.add_mk (a b c d : ℝ) :
    Vec.mk a b + Vec.mk c d = Vec.mk (a + c) (b + d) := rfl

@[simp] lemma Vec.sub_mk (a b c d : ℝ) :
    Vec.mk a b - Vec.mk c d = Vec.mk (a - c) (b - d) := rfl

@[simp] lemma Vec.smul_mk (s a b : ℝ) :
    s • Vec.mk a b = Vec.mk (s * a) (s * b) := rfl

/-- Claim C1 (amended): after `Limb.resolve`, the elbow lies exactly
`distance` from the root anchor and the foot exactly `distance` from the
elbow, provided `distance ≥ 0` and the world-bounds clamp leaves both
constrained joint positions unchanged (both already lie inside
`[0, width] × [0, height]`); the trailing clamp can otherwise pull a joint
off the exact-distance circle. -/
theorem claim1_exact_joint_distance (l : Limb) (anchor : Vec)
    (normal width height : ℝ) (hd : 0 ≤ l.distance)
    (he : inBox width height (l.resolveElbow anchor normal).pos)
    (hf : inBox width height (l.resolveFoot anchor normal width height).pos) :
    Vec.dist (l.resolve anchor normal width height).elbow.pos anchor
      = l.distance ∧
    Vec.dist (l.resolve anchor normal width height).foot.pos
      (l.resolve anchor normal width height).elbow.pos = l.distance := by
  have hE : (l.resolve anchor normal width height).elbow
      = l.resolveElbow anchor normal :=
    LimbPoint.keepInBounds_of_inBox _ _ _ he
  have hF : (l.resolve anchor normal width height).foot
      = l.resolveFoot anchor normal width height :=
    LimbPoint.keepInBounds_of_inBox _ _ _ hf
  constructor
  · rw [hE]
    exact LimbPoint.applyConstraint_dist _ _ _ _ _ _ hd
  · rw [hF, hE]
    have hfoot : l.resolveFoot anchor normal width height =
        ((l.foot.verletIntegrate 0.95).applyGravity 1).applyConstraint
          ((l.resolveElbow anchor normal).keepInBounds width height).pos
          ((l.resolveElbow anchor normal).keepInBounds width height).angle
          l.distance l.footRange l.footOffset := rfl
    rw [hfoot, LimbPoint.keepInBounds_of_inBox _ _ _ he]
    exact LimbPoint.applyConstraint_dist _ _ _ _ _ _ hd

lemma Vec.angle_mk_pos_x (r s : ℝ) (hr : 0 < r) (hs : s = 0) :
    (Vec.mk r s).angle = 0 := by
  unfold Vec.angle
  have harg : Complex.arg ⟨r, s⟩ = 0 := by
    have hc : (⟨r, s⟩ : ℂ) = ((r : ℝ) : ℂ) := by
      apply Complex.ext <;> simp [hs]
    rw [hc]
    exact Complex.arg_ofReal_of_nonneg hr.le
  rw [harg]
  norm_num

lemma Vec.angle_mk_neg_x (r s : ℝ) (hr : r < 0) (hs : s = 0) :
    (Vec.mk r s).angle = π := by
  unfold Vec.angle
  have harg : Complex.arg ⟨r, s⟩ = π := by
    have hc : (⟨r, s⟩ : ℂ) = ((r : ℝ) : ℂ) := by
      apply Complex.ext <;> simp [hs]
    rw [hc]
    exact Complex.arg_ofReal_of_neg hr
  rw [harg]
  simp [not_lt.mpr Real.pi_pos.le]

lemma relativeAngleDiff_self (a : ℝ) : relativeAngleDiff a a = 0 :=
  relativeAngleDiff_eq_of a a 0 0 (by norm_num)
    (by linarith [Real.pi_pos]) Real.pi_pos.le

lemma simplifyAngle_zero : simplifyAngle 0 = 0 :=
  simplifyAngle_eq_of 0 0 0 (by norm_num) le_rfl Real.two_pi_pos

lemma simplifyAngle_pi : simplifyAngle π = π :=
  simplifyAngle_eq_of π π 0 (by norm_num) Real.pi_pos.le
    (by linarith [Real.pi_pos])

/-- Clamping `constrainAngle a a 0` keeps the (reduced) angle. -/
lemma constrainAngle_self (a : ℝ) : constrainAngle a a 0 = simplifyAngle a := by
  unfold constrainAngle
  rw [if_pos]
  rw [relativeAngleDiff_self]
  norm_num

lemma Vec.setLength_of_ne (v : Vec) (len : ℝ) (hv : v.length ≠ 0) :
    v.setLength len = (len / v.length) • v := if_neg hv

lemma Vec.length_unit_x : (Vec.mk 1 0).length = 1 := by
  unfold Vec.length
  norm_num

lemma Vec.length_neg_unit_x : (Vec.mk (-1) 0).length = 1 := by
  unfold Vec.length
  norm_num

/-- Evaluation of `applyConstraint` in the axis-aligned situation where the
anchor lies in the `+x` direction from the point and both the reference
normal and the offsets are zero: the solved angle is `0` and the point lands
at `anchor - (d, 0)`. -/
lemma LimbPoint.applyConstraint_along_x (p : LimbPoint) (anchor : Vec) (d : ℝ)
    (hx : 0 < anchor.x - p.pos.x) (hy : anchor.y - p.pos.y = 0) :
    p.applyConstraint anchor 0 d 0 0 =
      { p with angle := 0, pos := anchor - Vec.mk d 0 } := by
  unfold LimbPoint.applyConstraint
  have hsub : anchor - p.pos = Vec.mk (anchor.x - p.pos.x) (anchor.y - p.pos.y) := rfl
  have hang : (anchor - p.pos).angle = 0 := by
    rw [hsub]
    exact Vec.angle_mk_pos_x _ _ hx hy
  rw [hang]
  norm_num [constrainAngle_self, simplifyAngle_zero]
  rw [Vec.setLength_of_ne _ _ (by rw [Vec.length_unit_x]; norm_num),
    Vec.length_unit_x]
  norm_num

/-- Mirror of `applyConstraint_along_x`: anchor in the `-x` direction,
reference normal `π`: the solved angle is `π` and the point lands at
`anchor + (d, 0)`. -/
lemma LimbPoint.applyConstraint_along_neg_x (p : LimbPoint) (anchor : Vec)
    (d : ℝ) (hx : anchor.x - p.pos.x < 0) (hy : anchor.y - p.pos.y = 0) :
    p.applyConstraint anchor π d 0 0 =
      { p with angle := π, pos := anchor - Vec.mk (-d) 0 } := by
  unfold LimbPoint.applyConstraint
  have hsub : anchor - p.pos = Vec.mk (anchor.x - p.pos.x) (anchor.y - p.pos.y) := rfl
  have hang : (anchor - p.pos).angle = π := by
    rw [hsub]
    exact Vec.angle_mk_neg_x _ _ hx hy
  rw [hang]
  norm_num [constrainAngle_self, simplifyAngle_pi]
  rw [Vec.setLength_of_ne _ _ (by rw [Vec.length_neg_unit_x]; norm_num),
    Vec.length_neg_unit_x]
  norm_num

/-- Concrete limb state used to exercise `claim1_exact_joint_distance`. -/
def limbW : Limb :=
  ⟨⟨⟨94, 99⟩, ⟨94, 99⟩, 0⟩, ⟨⟨89, 99⟩, ⟨89, 99⟩, 0⟩, 5, 0, 0, 0, 0⟩

lemma limbW_elbow_step :
    (limbW.elbow.verletIntegrate 0.95).applyGravity 1 = ⟨⟨94, 100⟩, ⟨94, 99⟩, 0⟩ := by
  simp [limbW, LimbPoint.verletIntegrate, LimbPoint.applyGravity]
  norm_num

lemma limbW_foot_step :
    (limbW.foot.verletIntegrate 0.95).applyGravity 1 = ⟨⟨89, 100⟩, ⟨89, 99⟩, 0⟩ := by
  simp [limbW, LimbPoint.verletIntegrate, LimbPoint.applyGravity]
  norm_num

lemma limbW_resolveElbow :
    limbW.resolveElbow ⟨100, 100⟩ 0 = ⟨⟨95, 100⟩, ⟨94, 99⟩, 0⟩ := by
  show ((limbW.elbow.verletIntegrate 0.95).applyGravity 1).applyConstraint
      ⟨100, 100⟩ 0 limbW.distance limbW.elbowRange limbW.elbowOffset = _
  rw [limbW_elbow_step, show limbW.distance = 5 from rfl,
    show limbW.elbowRange = 0 from rfl, show limbW.elbowOffset = 0 from rfl,
    LimbPoint.applyConstraint_along_x _ _ _ (by norm_num) (by norm_num)]
  simp
  norm_num

lemma limbW_elbow_inBox :
    inBox 1000 1000 (limbW.resolveElbow ⟨100, 100⟩ 0).pos := by
  rw [limbW_resolveElbow]
  exact ⟨by norm_num, by norm_num, by norm_num, by norm_num⟩

lemma limbW_elbow_clamped :
    (limbW.resolveElbow ⟨100, 100⟩ 0).keepInBounds 1000 1000
      = ⟨⟨95, 100⟩, ⟨94, 99⟩, 0⟩ := by
  rw [LimbPoint.keepInBounds_of_inBox _ _ _ limbW_elbow_inBox, limbW_resolveElbow]

lemma limbW_resolveFoot :
    limbW.resolveFoot ⟨100, 100⟩ 0 1000 1000 = ⟨⟨90, 100⟩, ⟨89, 99⟩, 0⟩ := by
  show ((limbW.foot.verletIntegrate 0.95).applyGravity 1).applyConstraint
      ((limbW.resolveElbow ⟨100, 100⟩ 0).keepInBounds 1000 1000).pos
      ((limbW.resolveElbow ⟨100, 100⟩ 0).keepInBounds 1000 1000).angle
      limbW.distance limbW.footRange limbW.footOffset = _
  rw [limbW_elbow_clamped, limbW_foot_step, show limbW.distance = 5 from rfl,
    show limbW.footRange = 0 from rfl, show limbW.footOffset = 0 from rfl]
  rw [show (LimbPoint.mk ⟨95, 100⟩ ⟨94, 99⟩ 0).pos = ⟨95, 100⟩ from rfl,
    show (LimbPoint.mk ⟨95, 100⟩ ⟨94, 99⟩ 0).angle = 0 from rfl,
    LimbPoint.applyConstraint_along_x _ _ _ (by norm_num) (by norm_num)]
  simp
  norm_num

lemma limbW_foot_inBox :
    inBox 1000 1000 (limbW.resolveFoot ⟨100, 100⟩ 0 1000 1000).pos := by
  rw [limbW_resolveFoot]
  exact ⟨by norm_num, by norm_num, by norm_num, by norm_num⟩

/-- Witness for `claim1_exact_joint_distance` on the concrete limb `limbW`. -/
theorem claim1_exact_joint_distance_witness :
    0 ≤ limbW.distance ∧
    inBox 1000 1000 (limbW.resolveElbow ⟨100, 100⟩ 0).pos ∧
    inBox 1000 1000 (limbW.resolveFoot ⟨100, 100⟩ 0 1000 1000).pos ∧
    Vec.dist (limbW.resolve ⟨100, 100⟩ 0 1000 1000).elbow.pos ⟨100, 100⟩
      = limbW.distance ∧
    Vec.dist (limbW.resolve ⟨100, 100⟩ 0 1000 1000).foot.pos
      (limbW.resolve ⟨100, 100⟩ 0 1000 1000).elbow.pos = limbW.distance := by
  have hd : (0:ℝ) ≤ limbW.distance := by norm_num [limbW]
  obtain ⟨g1, g2⟩ := claim1_exact_joint_distance limbW ⟨100, 100⟩ 0 1000 1000
    hd limbW_elbow_inBox limbW_foot_inBox
  exact ⟨hd, limbW_elbow_inBox, limbW_foot_inBox, g1, g2⟩

/-- Concrete limb state refuting the unamended claim C1. -/
def limbC : Limb :=
  ⟨⟨⟨8, 49⟩, ⟨8, 49⟩, 0⟩, ⟨⟨0, 0⟩, ⟨0, 0⟩, 0⟩, 5, 0, 0, 0, 0⟩

lemma limbC_elbow_step :
    (limbC.elbow.verletIntegrate 0.95).applyGravity 1 = ⟨⟨8, 50⟩, ⟨8, 49⟩, 0⟩ := by
  simp [limbC, LimbPoint.verletIntegrate, LimbPoint.applyGravity]
  norm_num

lemma limbC_resolveElbow :
    limbC.resolveElbow ⟨2, 50⟩ π = ⟨⟨7, 50⟩, ⟨8, 49⟩, π⟩ := by
  show ((limbC.elbow.verletIntegrate 0.95).applyGravity 1).applyConstraint
      ⟨2, 50⟩ π limbC.distance limbC.elbowRange limbC.elbowOffset = _
  rw [limbC_elbow_step, show limbC.distance = 5 from rfl,
    show limbC.elbowRange = 0 from rfl, show limbC.elbowOffset = 0 from rfl,
    LimbPoint.applyConstraint_along_neg_x _ _ _ (by norm_num) (by norm_num)]
  simp
  norm_num

/-- Counterexample to claim C1 as stated: with world bounds `width = 5`,
`height = 100`, root anchor `(2, 50)` and `segmentLength = 5`, the resolved
elbow is clamped to the world edge and ends at distance `3`, not `5`, from
the root anchor. -/
theorem claim1_counterexample :
    limbC.distance = 5 ∧
    Vec.dist ((limbC.resolve ⟨2, 50⟩ π 5 100).elbow.pos) ⟨2, 50⟩ = 3 := by
  constructor
  · rfl
  · have hE : (limbC.resolve ⟨2, 50⟩ π 5 100).elbow
        = (limbC.resolveElbow ⟨2, 50⟩ π).keepInBounds 5 100 := rfl
    rw [hE, limbC_resolveElbow]
    have hk : (LimbPoint.mk ⟨7, 50⟩ ⟨8, 49⟩ π).keepInBounds 5 100
        = ⟨⟨5, 50⟩, ⟨8, 49⟩, π⟩ := by
      unfold LimbPoint.keepInBounds clampR
      norm_num
    rw [hk]
    unfold Vec.dist
    rw [show ((LimbPoint.mk ⟨5, 50⟩ ⟨8, 49⟩ π).pos.x - (Vec.mk 2 50).x) ^ 2
        + ((LimbPoint.mk ⟨5, 50⟩ ⟨8, 49⟩ π).pos.y - (Vec.mk 2 50).y) ^ 2
        = 3 ^ 2 by norm_num]
    exact Real.sqrt_sq (by norm_num)

/-! Types `BlobPoint` and `Blob` (`Blob.ts`). -/

/-- A boundary point of the blob ring (`Blob.ts` lines 43–204). -/
structure BlobPoint where
  pos : Vec
  ppos : Vec
  displacement : Vec
  displacementWeight : ℕ

/-- Method `BlobPoint.verletIntegrate(damping)`. -/
def BlobPoint.verletIntegrate (p : BlobPoint) (damping : ℝ) : BlobPoint :=
  { p with pos := p.pos + damping • (p.pos - p.ppos), ppos := p.pos }

/-- Method `BlobPoint.applyGravity(g)`. -/
def BlobPoint.applyGravity (p : BlobPoint) (g : ℝ) : BlobPoint :=
  { p with pos := ⟨p.pos.x, p.pos.y + g⟩ }

/-- Method `BlobPoint.accumulateDisplacement(offset)`. -/
def BlobPoint.accumulateDisplacement (p : BlobPoint) (offset : Vec) : BlobPoint :=
  { p with displacement := p.displacement + offset
           displacementWeight := p.displacementWeight + 1 }

/-- Method `BlobPoint.applyDisplacement()`. -/
def BlobPoint.applyDisplacement (p : BlobPoint) : BlobPoint :=
  if 0 < p.displacementWeight then
    { p with pos := p.pos + ((1 : ℝ) / p.displacementWeight) • p.displacement
             displacement := 0
             displacementWeight := 0 }
  else p

/-- Method `BlobPoint.keepInBounds(width, height)`. -/
def BlobPoint.keepInBounds (p : BlobPoint) (width height : ℝ) : BlobPoint :=
  { p with pos := ⟨clampR p.pos.x 0 width, clampR p.pos.y 0 height⟩ }

/-- Method `BlobPoint.collideWithPointer(pointerWorld)` (`Blob.ts` lines 187–203);
`pointerWorld` is `null` or a world-space position, the repulsion radius is
the literal `100`. -/
def BlobPoint.collideWithPointer (p : BlobPoint) (pointerWorld : Option Vec) :
    BlobPoint :=
  match pointerWorld with
  | none => p
  | some q =>
      if Vec.dist p.pos q < 100 then
        { p with pos := q + (p.pos - q).setLength 100 }
      else p

@[simp] lemma BlobPoint.accumulateDisplacement_pos (p : BlobPoint) (v : Vec) :
    (p.accumulateDisplacement v).pos = p.pos := rfl

/-- The blob: rest quantities fixed at construction plus the cyclic ring of
`n` boundary points (`Blob.ts` lines 206–243); rendering-only fields are
omitted. -/
@[ext]
structure Blob (n : ℕ) where
  radius : ℝ
  area : ℝ
  circumference : ℝ
  chordLength : ℝ
  points : Fin n → BlobPoint

/-- The `Blob` constructor (`Blob.ts` lines 222–243). -/
def Blob.construct (origin : Vec) (numPoints : ℕ) (radius puffiness : ℝ) :
    Blob numPoints :=
  { radius := radius
    area := radius * radius * π * puffiness
    circumference := radius * π * 2
    chordLength := radius * π * 2 / numPoints
    points := fun i =>
      let angle := (π * 2 * (i : ℕ)) / numPoints - π / 2
      ⟨origin + Vec.mk (Real.cos angle * radius) (Real.sin angle * radius),
       origin + Vec.mk (Real.cos angle * radius) (Real.sin angle * radius),
       0, 0⟩ }

/-- Method `Blob.getArea()` (`Blob.ts` lines 245–253): shoelace sum over the ring. -/
def getArea {n : ℕ} [NeZero n] (pts : Fin n → BlobPoint) : ℝ :=
  ∑ i : Fin n,
    ((pts i).pos.x - (pts (i + 1)).pos.x) * ((pts i).pos.y + (pts (i + 1)).pos.y) / 2

/-- The `offset` vector of the distance-constraint loop body
(`Blob.ts` lines 275–279): the difference vector scaled to half the excess
over the chord length. -/
def pairOffset (chordLength : ℝ) (cur next : BlobPoint) : Vec :=
  (next.pos - cur.pos).setLength (((next.pos - cur.pos).length - chordLength) / 2)

/-- One step `i` of the distance-constraint loop (`Blob.ts` lines 272–284):
if the cyclic pair `(i, i+1)` is stretched beyond `chordLength`, both
endpoints accumulate opposite half-excess corrections; otherwise nothing
happens.  The second read goes through the once-updated map so that the
sequential mutation of the source is reproduced exactly. -/
def distanceConstraintPair {n : ℕ} [NeZero n] (chordLength : ℝ)
    (pts : Fin n → BlobPoint) (i : Fin n) : Fin n → BlobPoint :=
  let cur := pts i
  let next := pts (i + 1)
  if chordLength < (next.pos - cur.pos).length then
    let offset := pairOffset chordLength cur next
    let pts1 := Function.update pts i (cur.accumulateDisplacement offset)
    Function.update pts1 (i + 1)
      ((pts1 (i + 1)).accumulateDisplacement ((-1 : ℝ) • offset))
  else pts

/-- The distance-constraint loop over all ring indices. -/
def distancePass {n : ℕ} [NeZero n] (chordLength : ℝ)
    (pts : Fin n → BlobPoint) : Fin n → BlobPoint :=
  (List.finRange n).foldl (distanceConstraintPair chordLength) pts

/-- The normal accumulated on point `i` by the dilation loop
(`Blob.ts` lines 296–301): the secant between the two neighbours rotated by
`-π/2` and scaled to the per-point offset. -/
def dilationNormal (prevPos nextPos : Vec) (offset : ℝ) : Vec :=
  ((nextPos - prevPos).rotate (-(π / 2))).setLength offset

/-- The dilation (area preservation) loop (`Blob.ts` lines 286–302); the
per-point offset is computed once from the area error before the loop. -/
def dilationPass {n : ℕ} [NeZero n] (area circumference : ℝ)
    (pts : Fin n → BlobPoint) : Fin n → BlobPoint :=
  let offset := (area - getArea pts) / circumference
  (List.finRange n).foldl
    (fun acc i =>
      Function.update acc i
        ((acc i).accumulateDisplacement
          (dilationNormal ((acc (i - 1)).pos) ((acc (i + 1)).pos) offset)))
    pts

/-- One iteration of the relaxation loop in `Blob.update`
(`Blob.ts` lines 270–315): distance constraints, dilation, application of
the accumulated displacements, then per point the bounds clamp followed by
the pointer collision. -/
def Blob.iterationStep {n : ℕ} [NeZero n] (b : Blob n) (width height : ℝ)
    (pointerWorld : Option Vec) (pts : Fin n → BlobPoint) :
    Fin n → BlobPoint :=
  let pts1 := distancePass b.chordLength pts
  let pts2 := dilationPass b.area b.circumference pts1
  let pts3 := fun i => (pts2 i).applyDisplacement
  fun i => ((pts3 i).keepInBounds width height).collideWithPointer pointerWorld

/-- Method `Blob.update(iterations)` (`Blob.ts` lines 255–316), with the
scene-derived inputs (world width/height and the pointer's world position
when the pointer is down, else `null`) passed explicitly. -/
def Blob.update {n : ℕ} [NeZero n] (b : Blob n) (width height : ℝ)
    (pointerWorld : Option Vec) (iterations : ℕ) : Blob n :=
  let pts0 : Fin n → BlobPoint :=
    fun i => ((b.points i).verletIntegrate 0.99).applyGravity 1
  { b with points :=
      Nat.iterate (b.iterationStep width height pointerWorld) iterations pts0 }

/-- Claim C7: in the distance-constraint step, a cyclic adjacent pair at
distance at most `chordLength` is left completely untouched (no displacement
or weight is accumulated); a stretched pair accumulates opposite corrections
on its two endpoints, each of magnitude half the excess over `chordLength`. -/
theorem claim7_one_sided_distance_constraint {n : ℕ} [NeZero n]
    (chordLength : ℝ) (pts : Fin n → BlobPoint) (i : Fin n) :
    (((pts (i + 1)).pos - (pts i).pos).length ≤ chordLength →
      distanceConstraintPair chordLength pts i = pts) ∧
    (chordLength < ((pts (i + 1)).pos - (pts i).pos).length →
      0 ≤ chordLength → i + 1 ≠ i →
      (pairOffset chordLength (pts i) (pts (i + 1))).length
        = (((pts (i + 1)).pos - (pts i).pos).length - chordLength) / 2 ∧
      distanceConstraintPair chordLength pts i i
        = (pts i).accumulateDisplacement
            (pairOffset chordLength (pts i) (pts (i + 1))) ∧
      distanceConstraintPair chordLength pts i (i + 1)
        = (pts (i + 1)).accumulateDisplacement
            ((-1 : ℝ) • pairOffset chordLength (pts i) (pts (i + 1)))) := by
  constructor
  · intro h
    simp only [distanceConstraintPair]
    rw [if_neg (not_lt.mpr h)]
  · intro h hc hne
    have hmagpos : 0 < ((pts (i + 1)).pos - (pts i).pos).length :=
      lt_of_le_of_lt hc h
    have hlen : ((pts (i + 1)).pos - (pts i).pos).length ≠ 0 := ne_of_gt hmagpos
    have hij : i ≠ i + 1 := Ne.symm hne
    refine ⟨?_, ?_, ?_⟩
    · unfold pairOffset
      exact Vec.setLength_length _ _ hlen (by linarith)
    · simp only [distanceConstraintPair]
      rw [if_pos h, Function.update_noteq hij, Function.update_same]
    · simp only [distanceConstraintPair]
      rw [if_pos h, Function.update_same, Function.update_noteq hne]

/-- Concrete two-point ring used to exercise
`claim7_one_sided_distance_constraint`. -/
def ptsC7 : Fin 2 → BlobPoint :=
  fun i => if i = 0 then ⟨⟨0, 0⟩, ⟨0, 0⟩, 0, 0⟩ else ⟨⟨3, 0⟩, ⟨0, 0⟩, 0, 0⟩

lemma ptsC7_gap : ((ptsC7 (0 + 1)).pos - (ptsC7 0).pos).length = 3 := by
  have h1 : (0 : Fin 2) + 1 = 1 := by decide
  rw [h1]
  unfold ptsC7 Vec.length
  norm_num
  rw [show (9 : ℝ) = 3 ^ 2 by norm_num]
  exact Real.sqrt_sq (by norm_num)

/-- Witness for `claim7_one_sided_distance_constraint`: with chord `5` the
pair at distance `3` is untouched; with chord `1` the same pair is corrected
by half the excess on each endpoint. -/
theorem claim7_one_sided_distance_constraint_witness :
    distanceConstraintPair 5 ptsC7 0 = ptsC7 ∧
    (pairOffset 1 (ptsC7 0) (ptsC7 (0 + 1))).length
      = (((ptsC7 (0 + 1)).pos - (ptsC7 0).pos).length - 1) / 2 ∧
    distanceConstraintPair 1 ptsC7 0 0
      = (ptsC7 0).accumulateDisplacement
          (pairOffset 1 (ptsC7 0) (ptsC7 (0 + 1))) ∧
    distanceConstraintPair 1 ptsC7 0 (0 + 1)
      = (ptsC7 (0 + 1)).accumulateDisplacement
          ((-1 : ℝ) • pairOffset 1 (ptsC7 0) (ptsC7 (0 + 1))) := by
  have hslack := (claim7_one_sided_distance_constraint 5 ptsC7 0).1
    (by rw [ptsC7_gap]; norm_num)
  have hstretch := (claim7_one_sided_distance_constraint 1 ptsC7 0).2
    (by rw [ptsC7_gap]; norm_num) (by norm_num) (by decide)
  exact ⟨hslack, hstretch.1, hstretch.2.1, hstretch.2.2⟩

/-- Claim C4 (amended): after `Blob.update` an adjacent pair's distance can
exceed `chordLength` (the corrections are averaged relaxations and the
dilation, bounds and repulsion steps run after the distance pass); what does
hold is the per-step correction law: for a pair stretched to distance
`d > chordLength` the distance pass accumulates opposite corrections of
magnitude `(d - chordLength)/2` on the endpoints, and applying exactly those
two corrections would put the pair at distance exactly `chordLength`. -/
theorem claim4_pair_correction (chordLength : ℝ) (cur next : BlobPoint)
    (hc : 0 ≤ chordLength)
    (hs : chordLength < (next.pos - cur.pos).length) :
    (pairOffset chordLength cur next).length
      = ((next.pos - cur.pos).length - chordLength) / 2 ∧
    Vec.dist (cur.pos + pairOffset chordLength cur next)
      (next.pos + (-1 : ℝ) • pairOffset chordLength cur next) = chordLength := by
  have hm : 0 < (next.pos - cur.pos).length := lt_of_le_of_lt hc hs
  have hm' : (next.pos - cur.pos).length ≠ 0 := ne_of_gt hm
  constructor
  · unfold pairOffset
    exact Vec.setLength_length _ _ hm' (by linarith)
  · have ho : pairOffset chordLength cur next
        = ((((next.pos - cur.pos).length - chordLength) / 2)
            / (next.pos - cur.pos).length) • (next.pos - cur.pos) :=
      Vec.setLength_of_ne _ _ hm'
    rw [Vec.dist_eq_length, ho]
    have hv : cur.pos + ((((next.pos - cur.pos).length - chordLength) / 2)
          / (next.pos - cur.pos).length) • (next.pos - cur.pos)
        - (next.pos + (-1 : ℝ) • (((((next.pos - cur.pos).length - chordLength) / 2)
          / (next.pos - cur.pos).length) • (next.pos - cur.pos)))
        = (-(chordLength / (next.pos - cur.pos).length)) • (next.pos - cur.pos) := by
      ext
      · simp
        field_simp
        ring
      · simp
        field_simp
        ring
    rw [hv, Vec.length_smul, abs_neg,
      abs_of_nonneg (div_nonneg hc hm.le), div_mul_cancel₀ _ hm']

/-- Witness for `claim4_pair_correction`: endpoints at distance `4` with
chord length `2`. -/
theorem claim4_pair_correction_witness :
    (pairOffset 2 (BlobPoint.mk ⟨0, 0⟩ ⟨0, 0⟩ 0 0) (BlobPoint.mk ⟨4, 0⟩ ⟨0, 0⟩ 0 0)).length
      = (((BlobPoint.mk ⟨4, 0⟩ ⟨0, 0⟩ 0 0).pos
          - (BlobPoint.mk ⟨0, 0⟩ ⟨0, 0⟩ 0 0).pos).length - 2) / 2 ∧
    Vec.dist ((BlobPoint.mk ⟨0, 0⟩ ⟨0, 0⟩ 0 0).pos
        + pairOffset 2 (BlobPoint.mk ⟨0, 0⟩ ⟨0, 0⟩ 0 0) (BlobPoint.mk ⟨4, 0⟩ ⟨0, 0⟩ 0 0))
      ((BlobPoint.mk ⟨4, 0⟩ ⟨0, 0⟩ 0 0).pos
        + (-1 : ℝ) • pairOffset 2 (BlobPoint.mk ⟨0, 0⟩ ⟨0, 0⟩ 0 0) (BlobPoint.mk ⟨4, 0⟩ ⟨0, 0⟩ 0 0))
      = 2 := by
  apply claim4_pair_correction 2 _ _ (by norm_num)
  show (2:ℝ) < (Vec.mk 4 0 - Vec.mk 0 0).length
  rw [Vec.sub_mk]
  unfold Vec.length
  norm_num
  rw [show (16 : ℝ) = 4 ^ 2 by norm_num]
  rw [Real.sqrt_sq (by norm_num)]
  norm_num

lemma BlobPoint.keepInBounds_inBox (p : BlobPoint) (w h : ℝ)
    (hw : 0 ≤ w) (hh : 0 ≤ h) : inBox w h (p.keepInBounds w h).pos := by
  unfold BlobPoint.keepInBounds inBox
  exact ⟨(clampR_mem _ _ hw).1, (clampR_mem _ _ hw).2,
    (clampR_mem _ _ hh).1, (clampR_mem _ _ hh).2⟩

lemma BlobPoint.collideWithPointer_none (p : BlobPoint) :
    p.collideWithPointer none = p := rfl

/-- After a pointer collision the point either kept its position, coincides
with the pointer (the zero-direction fallback), or sits exactly on the
repulsion circle of radius `100`. -/
lemma BlobPoint.collideWithPointer_cases (p : BlobPoint) (q : Vec) :
    (p.collideWithPointer (some q)).pos = p.pos ∨
    (p.collideWithPointer (some q)).pos = q ∨
    Vec.dist (p.collideWithPointer (some q)).pos q = 100 := by
  simp only [BlobPoint.collideWithPointer]
  by_cases h : Vec.dist p.pos q < 100
  · rw [if_pos h]
    by_cases h0 : (p.pos - q).length = 0
    · right; left
      have hz : p.pos - q = 0 := Vec.length_eq_zero _ h0
      show q + (p.pos - q).setLength 100 = q
      unfold Vec.setLength
      rw [if_pos h0, hz]
      ext <;> simp
    · right; right
      show Vec.dist (q + (p.pos - q).setLength 100) q = 100
      rw [Vec.dist_add_right]
      exact Vec.setLength_length _ _ h0 (by norm_num)
  · rw [if_neg h]
    exact Or.inl rfl

/-- After a pointer collision the point coincides with the pointer or is at
distance at least `100` from it. -/
lemma BlobPoint.collideWithPointer_far (p : BlobPoint) (q : Vec) :
    (p.collideWithPointer (some q)).pos = q ∨
    100 ≤ Vec.dist (p.collideWithPointer (some q)).pos q := by
  simp only [BlobPoint.collideWithPointer]
  by_cases h : Vec.dist p.pos q < 100
  · rw [if_pos h]
    by_cases h0 : (p.pos - q).length = 0
    · left
      have hz : p.pos - q = 0 := Vec.length_eq_zero _ h0
      show q + (p.pos - q).setLength 100 = q
      unfold Vec.setLength
      rw [if_pos h0, hz]
      ext <;> simp
    · right
      show (100:ℝ) ≤ Vec.dist (q + (p.pos - q).setLength 100) q
      rw [Vec.dist_add_right, Vec.setLength_length _ _ h0 (by norm_num)]
  · rw [if_neg h]
    exact Or.inr (le_of_not_lt h)

lemma Blob.iterationStep_apply {n : ℕ} [NeZero n] (b : Blob n) (w h : ℝ)
    (pointer : Option Vec) (pts : Fin n → BlobPoint) (i : Fin n) :
    b.iterationStep w h pointer pts i =
      (((dilationPass b.area b.circumference
          (distancePass b.chordLength pts) i).applyDisplacement).keepInBounds
        w h).collideWithPointer pointer := rfl

lemma Blob.update_points_succ {n : ℕ} [NeZero n] (b : Blob n) (w h : ℝ)
    (pointer : Option Vec) (k : ℕ) :
    (b.update w h pointer (k + 1)).points =
      b.iterationStep w h pointer
        (Nat.iterate (b.iterationStep w h pointer) k
          (fun j => ((b.points j).verletIntegrate 0.99).applyGravity 1)) := by
  show Nat.iterate _ (k + 1) _ = _
  exact Function.iterate_succ_apply' _ _ _

/-- Claim C2 (amended): after `Blob.update` with no repulsion point every
point lies in `[0, width] × [0, height]`; with a repulsion point each point
either lies in the box, or was moved by the final repulsion step — which
runs after the bounds clamp — onto the repulsion point itself or onto its
radius-100 circle, possibly outside the box. -/
theorem claim2_bounds_invariant {n : ℕ} [NeZero n] (b : Blob n)
    (width height : ℝ) (hw : 0 ≤ width) (hh : 0 ≤ height)
    (iterations : ℕ) (hi : 1 ≤ iterations) :
    (∀ i : Fin n, inBox width height
      ((b.update width height none iterations).points i).pos) ∧
    (∀ (q : Vec) (i : Fin n),
      inBox width height
        ((b.update width height (some q) iterations).points i).pos ∨
      ((b.update width height (some q) iterations).points i).pos = q ∨
      Vec.dist ((b.update width height (some q) iterations).points i).pos q
        = 100) := by
  obtain ⟨k, hk⟩ : ∃ k, iterations = k + 1 := ⟨iterations - 1, by omega⟩
  subst hk
  constructor
  · intro i
    rw [Blob.update_points_succ, Blob.iterationStep_apply,
      BlobPoint.collideWithPointer_none]
    exact BlobPoint.keepInBounds_inBox _ _ _ hw hh
  · intro q i
    rw [Blob.update_points_succ, Blob.iterationStep_apply]
    rcases BlobPoint.collideWithPointer_cases
      (((dilationPass b.area b.circumference
          (distancePass b.chordLength
            (Nat.iterate (b.iterationStep width height (some q)) k
              (fun j => ((b.points j).verletIntegrate 0.99).applyGravity 1)))
          i).applyDisplacement).keepInBounds width height) q with hc | hc | hc
    · left
      rw [hc]
      exact BlobPoint.keepInBounds_inBox _ _ _ hw hh
    · right; left; exact hc
    · right; right; exact hc

/-- Claim C3 (amended): if a repulsion point is supplied, after `Blob.update`
every point either lies at distance at least `100` from it or coincides
exactly with it — a point exactly on the repulsion point is left in place by
the zero-length-direction fallback of `setLength`. -/
theorem claim3_repulsion_invariant {n : ℕ} [NeZero n] (b : Blob n)
    (width height : ℝ) (q : Vec) (iterations : ℕ) (hi : 1 ≤ iterations) :
    ∀ i : Fin n,
      ((b.update width height (some q) iterations).points i).pos = q ∨
      100 ≤ Vec.dist ((b.update width height (some q) iterations).points i).pos
        q := by
  obtain ⟨k, hk⟩ : ∃ k, iterations = k + 1 := ⟨iterations - 1, by omega⟩
  subst hk
  intro i
  rw [Blob.update_points_succ, Blob.iterationStep_apply]
  exact BlobPoint.collideWithPointer_far _ q

@[simp] lemma Vec.length_zero : (0 : Vec).length = 0 := by
  unfold Vec.length
  norm_num

lemma Vec.sub_self (v : Vec) : v - v = 0 := by ext <;> simp

lemma Vec.rotate_zero_vec (delta : ℝ) : (0 : Vec).rotate delta = 0 := by
  unfold Vec.rotate
  ext <;> simp

lemma Vec.setLength_zero_vec (len : ℝ) : (0 : Vec).setLength len = 0 := by
  unfold Vec.setLength
  rw [if_pos Vec.length_zero]

/-- Claim C8: the zero-length-vector situations in the simulation degenerate
to a zero displacement: a point exactly on the repulsion point is left in
place by `collideWithPointer`, and coincident neighbours make the dilation
secant zero so the accumulated dilation correction is the zero vector
(`setLength` of the zero vector is the zero vector by its normalize
fallback).  In this real-number model every produced coordinate is a real
number, so no undefined value propagates. -/
theorem claim8_degenerate_geometry :
    (∀ (q : Vec) (p : BlobPoint), p.pos = q →
      (p.collideWithPointer (some q)).pos = p.pos) ∧
    (∀ (prevPos nextPos : Vec) (offset : ℝ), prevPos = nextPos →
      dilationNormal prevPos nextPos offset = 0) ∧
    (∀ len : ℝ, (0 : Vec).setLength len = 0) := by
  refine ⟨?_, ?_, Vec.setLength_zero_vec⟩
  · intro q p hp
    simp only [BlobPoint.collideWithPointer]
    by_cases h : Vec.dist p.pos q < 100
    · rw [if_pos h]
      show q + (p.pos - q).setLength 100 = p.pos
      rw [hp, Vec.sub_self, Vec.setLength_zero_vec]
      ext <;> simp
    · rw [if_neg h]
  · intro prevPos nextPos offset hpn
    unfold dilationNormal
    rw [hpn, Vec.sub_self, Vec.rotate_zero_vec, Vec.setLength_zero_vec]

/-- Witness for `claim8_degenerate_geometry` at concrete inputs. -/
theorem claim8_degenerate_geometry_witness :
    ((BlobPoint.mk ⟨1, 2⟩ ⟨0, 0⟩ 0 0).collideWithPointer (some ⟨1, 2⟩)).pos
      = (BlobPoint.mk ⟨1, 2⟩ ⟨0, 0⟩ 0 0).pos ∧
    dilationNormal ⟨5, 5⟩ ⟨5, 5⟩ 7 = 0 ∧
    (0 : Vec).setLength 9 = 0 :=
  ⟨claim8_degenerate_geometry.1 ⟨1, 2⟩ _ rfl,
   claim8_degenerate_geometry.2.1 _ _ 7 rfl,
   claim8_degenerate_geometry.2.2 9⟩

/-- Claim C6 (amended): neither constructor validates its arguments — for
every argument tuple, including `numPoints < 3`, `radius ≤ 0`,
`segmentLength ≤ 0` and negative angle ranges, construction succeeds and
yields an object whose fields are computed from the arguments by the
constructor formulas. -/
theorem claim6_no_construction_validation :
    (∀ (o : Vec) (numPoints : ℕ) (radius puffiness : ℝ),
      (Blob.construct o numPoints radius puffiness).radius = radius ∧
      (Blob.construct o numPoints radius puffiness).area
        = radius * radius * π * puffiness ∧
      (Blob.construct o numPoints radius puffiness).circumference
        = radius * π * 2 ∧
      (Blob.construct o numPoints radius puffiness).chordLength
        = radius * π * 2 / numPoints) ∧
    (∀ (o : Vec) (d er eo fr fo : ℝ),
      (Limb.construct o d er eo fr fo).distance = d ∧
      (Limb.construct o d er eo fr fo).elbowRange = er ∧
      (Limb.construct o d er eo fr fo).elbowOffset = eo ∧
      (Limb.construct o d er eo fr fo).footRange = fr ∧
      (Limb.construct o d er eo fr fo).footOffset = fo) :=
  ⟨fun _ _ _ _ => ⟨rfl, rfl, rfl, rfl⟩,
   fun _ _ _ _ _ _ => ⟨rfl, rfl, rfl, rfl, rfl⟩⟩

/-- Counterexample to claim C6 as stated: constructing a `Blob` with
`numPoints = 2 < 3` and `radius = -1 ≤ 0`, and a `Limb` with
`segmentLength = -3 ≤ 0` and negative angle ranges, succeeds — the
constructors contain no validation and produce fully populated objects. -/
theorem claim6_counterexample :
    (Blob.construct ⟨0, 0⟩ 2 (-1) 1).radius = -1 ∧
    (Blob.construct ⟨0, 0⟩ 2 (-1) 1).chordLength = -π ∧
    (Limb.construct ⟨0, 0⟩ (-3) (-1) 0 (-1) 0).distance = -3 ∧
    (Limb.construct ⟨0, 0⟩ (-3) (-1) 0 (-1) 0).elbowRange = -1 ∧
    (Limb.construct ⟨0, 0⟩ (-3) (-1) 0 (-1) 0).footRange = -1 := by
  refine ⟨rfl, ?_, rfl, rfl, rfl⟩
  show (-1 : ℝ) * π * 2 / ((2:ℕ) : ℝ) = -π
  push_cast
  ring

lemma dilationNormal_self (v : Vec) (offset : ℝ) : dilationNormal v v offset = 0 := by
  unfold dilationNormal
  rw [Vec.sub_self, Vec.rotate_zero_vec, Vec.setLength_zero_vec]

/-- On a ring whose points all coincide, the distance pass is the identity
(for a nonnegative chord length). -/
lemma distancePass_const {n : ℕ} [NeZero n] (chordLength : ℝ)
    (hc : 0 ≤ chordLength) (p : BlobPoint) :
    distancePass chordLength (fun _ : Fin n => p) = (fun _ => p) := by
  unfold distancePass
  suffices h : ∀ l : List (Fin n),
      l.foldl (distanceConstraintPair chordLength) (fun _ => p) = fun _ => p by
    exact h _
  intro l
  induction l with
  | nil => rfl
  | cons a l ih =>
      rw [List.foldl_cons]
      have hstep : distanceConstraintPair chordLength (fun _ => p) a = fun _ => p := by
        simp only [distanceConstraintPair]
        rw [if_neg]
        rw [Vec.sub_self, Vec.length_zero]
        exact not_lt.mpr hc
      rw [hstep, ih]

lemma getArea_const3 (p : BlobPoint) : getArea (fun _ : Fin 3 => p) = 0 := by
  unfold getArea
  simp

/-- On a three-point ring whose points all coincide the dilation pass gives
point `0` a zero accumulated correction (and weight one). -/
lemma dilationPass_const3_at0 (area circumference : ℝ) (p : BlobPoint) :
    dilationPass area circumference (fun _ : Fin 3 => p) 0
      = p.accumulateDisplacement 0 := by
  unfold dilationPass
  rw [show List.finRange 3 = [0, 1, 2] by decide]
  simp only [List.foldl_cons, List.foldl_nil]
  rw [Function.update_noteq (by decide), Function.update_noteq (by decide),
    Function.update_same, dilationNormal_self]

lemma BlobPoint.applyDisplacement_accum_zero (p : BlobPoint)
    (h : p.displacement = 0) (hw : p.displacementWeight = 0) :
    (p.accumulateDisplacement 0).applyDisplacement = p := by
  unfold BlobPoint.accumulateDisplacement BlobPoint.applyDisplacement
  rw [if_pos (by simp)]
  have hz : ((1 : ℝ) / ((p.displacementWeight + 1 : ℕ) : ℝ)) • (p.displacement + 0)
      = 0 := by
    rw [h]
    ext <;> simp
  simp only [hz]
  cases p with
  | mk pos ppos displacement displacementWeight =>
      simp at h hw
      simp [h, hw]
      ext <;> simp

lemma BlobPoint.keepInBounds_id_inBox (p : BlobPoint) (w h : ℝ)
    (hp : inBox w h p.pos) : p.keepInBounds w h = p := by
  obtain ⟨h1, h2, h3, h4⟩ := hp
  unfold BlobPoint.keepInBounds
  rw [clampR_eq_self _ _ _ h1 h2, clampR_eq_self _ _ _ h3 h4]

/-- Blob state (three coincident points just above the pointer) refuting the
unamended claim C2. -/
def blob2 : Blob 3 := ⟨1, 3, 6, 2, fun _ => ⟨⟨100, 99⟩, ⟨100, 99⟩, 0, 0⟩⟩

lemma blob2_pts0 :
    (fun j => ((blob2.points j).verletIntegrate 0.99).applyGravity 1)
      = (fun _ : Fin 3 => ⟨⟨100, 100⟩, ⟨100, 99⟩, 0, 0⟩) := by
  funext j
  simp [blob2, BlobPoint.verletIntegrate, BlobPoint.applyGravity]
  norm_num

lemma blob2_final_pos :
    ((blob2.update 200 100 (some ⟨100, 99⟩) 1).points 0).pos = ⟨100, 199⟩ := by
  rw [show (1:ℕ) = 0 + 1 from rfl, Blob.update_points_succ]
  rw [show Nat.iterate (blob2.iterationStep 200 100 (some ⟨100, 99⟩)) 0
      (fun j => ((blob2.points j).verletIntegrate 0.99).applyGravity 1)
      = (fun j => ((blob2.points j).verletIntegrate 0.99).applyGravity 1) from rfl]
  rw [blob2_pts0, Blob.iterationStep_apply]
  rw [show blob2.chordLength = 2 from rfl, show blob2.area = 3 from rfl,
    show blob2.circumference = 6 from rfl]
  rw [distancePass_const 2 (by norm_num) _, dilationPass_const3_at0,
    BlobPoint.applyDisplacement_accum_zero _ rfl rfl]
  rw [BlobPoint.keepInBounds_id_inBox _ _ _
    (by exact ⟨by norm_num, by norm_num, by norm_num, by norm_num⟩)]
  simp only [BlobPoint.collideWithPointer]
  rw [if_pos]
  · show (Vec.mk 100 99) + ((Vec.mk 100 100 - Vec.mk 100 99).setLength 100)
      = Vec.mk 100 199
    rw [Vec.sub_mk]
    norm_num
    rw [Vec.setLength_of_ne]
    · rw [show (Vec.mk 0 1).length = 1 by
        unfold Vec.length; norm_num]
      norm_num
    · rw [show (Vec.mk 0 1).length = 1 by
        unfold Vec.length; norm_num]
      norm_num
  · show Vec.dist (Vec.mk 100 100) (Vec.mk 100 99) < 100
    unfold Vec.dist
    norm_num

/-- Counterexample to claim C2 as stated: with a repulsion point supplied,
the repulsion step runs after the bounds clamp and pushes a point to
`y = 199 > height = 100`, outside the world box. -/
theorem claim2_counterexample :
    ¬ inBox 200 100 ((blob2.update 200 100 (some ⟨100, 99⟩) 1).points 0).pos := by
  rw [blob2_final_pos]
  intro hbox
  have h4 := hbox.2.2.2
  norm_num at h4

/-- Blob state (three points coinciding with the repulsion point after the
gravity step) refuting the unamended claim C3. -/
def blob3 : Blob 3 := ⟨1, 3, 6, 2, fun _ => ⟨⟨50, 49⟩, ⟨50, 49⟩, 0, 0⟩⟩

lemma blob3_pts0 :
    (fun j => ((blob3.points j).verletIntegrate 0.99).applyGravity 1)
      = (fun _ : Fin 3 => ⟨⟨50, 50⟩, ⟨50, 49⟩, 0, 0⟩) := by
  funext j
  simp [blob3, BlobPoint.verletIntegrate, BlobPoint.applyGravity]
  norm_num

lemma blob3_final_pos :
    ((blob3.update 1000 1000 (some ⟨50, 50⟩) 1).points 0).pos = ⟨50, 50⟩ := by
  rw [show (1:ℕ) = 0 + 1 from rfl, Blob.update_points_succ]
  rw [show Nat.iterate (blob3.iterationStep 1000 1000 (some ⟨50, 50⟩)) 0
      (fun j => ((blob3.points j).verletIntegrate 0.99).applyGravity 1)
      = (fun j => ((blob3.points j).verletIntegrate 0.99).applyGravity 1) from rfl]
  rw [blob3_pts0, Blob.iterationStep_apply]
  rw [show blob3.chordLength = 2 from rfl, show blob3.area = 3 from rfl,
    show blob3.circumference = 6 from rfl]
  rw [distancePass_const 2 (by norm_num) _, dilationPass_const3_at0,
    BlobPoint.applyDisplacement_accum_zero _ rfl rfl]
  rw [BlobPoint.keepInBounds_id_inBox _ _ _
    (by exact ⟨by norm_num, by norm_num, by norm_num, by norm_num⟩)]
  simp only [BlobPoint.collideWithPointer]
  rw [if_pos]
  · show (Vec.mk 50 50) + ((Vec.mk 50 50 - Vec.mk 50 50).setLength 100)
      = Vec.mk 50 50
    rw [Vec.sub_mk]
    norm_num
    rw [show Vec.mk (0:ℝ) (0:ℝ) = (0 : Vec) from rfl, Vec.setLength_zero_vec]
    ext <;> simp
  · show Vec.dist (Vec.mk 50 50) (Vec.mk 50 50) < 100
    unfold Vec.dist
    norm_num

/-- Counterexample to claim C3 as stated: a point that coincides with the
repulsion point after the Verlet/gravity step is left exactly on it, at
distance `0`, not at distance `≥ 100`. -/
theorem claim3_counterexample :
    Vec.dist ((blob3.update 1000 1000 (some ⟨50, 50⟩) 1).points 0).pos ⟨50, 50⟩
      = 0 := by
  rw [blob3_final_pos]
  unfold Vec.dist
  norm_num

/-- Witness for `claim2_bounds_invariant` on the concrete blob `blob2`. -/
theorem claim2_bounds_invariant_witness :
    inBox 50 60 ((blob2.update 50 60 none 1).points 0).pos ∧
    (inBox 50 60 ((blob2.update 50 60 (some ⟨7, 8⟩) 1).points 0).pos ∨
     ((blob2.update 50 60 (some ⟨7, 8⟩) 1).points 0).pos = ⟨7, 8⟩ ∨
     Vec.dist ((blob2.update 50 60 (some ⟨7, 8⟩) 1).points 0).pos ⟨7, 8⟩
       = 100) :=
  ⟨(claim2_bounds_invariant blob2 50 60 (by norm_num) (by norm_num) 1
      (by norm_num)).1 0,
   (claim2_bounds_invariant blob2 50 60 (by norm_num) (by norm_num) 1
      (by norm_num)).2 ⟨7, 8⟩ 0⟩

/-- Witness for `claim3_repulsion_invariant` on the concrete blob `blob3`. -/
theorem claim3_repulsion_invariant_witness :
    ((blob3.update 80 90 (some ⟨3, 4⟩) 2).points 1).pos = ⟨3, 4⟩ ∨
    100 ≤ Vec.dist ((blob3.update 80 90 (some ⟨3, 4⟩) 2).points 1).pos ⟨3, 4⟩ :=
  claim3_repulsion_invariant blob3 80 90 ⟨3, 4⟩ 2 (by norm_num) 1

lemma Vec.length_pos_x_axis (s : ℝ) (hs : 0 < s) : (Vec.mk s 0).length = s := by
  unfold Vec.length
  rw [show s ^ 2 + (0:ℝ) ^ 2 = s ^ 2 by ring]
  exact Real.sqrt_sq hs.le

lemma Vec.length_neg_x_axis (s : ℝ) (hs : 0 < s) : (Vec.mk (-s) 0).length = s := by
  unfold Vec.length
  rw [show (-s) ^ 2 + (0:ℝ) ^ 2 = s ^ 2 by ring]
  exact Real.sqrt_sq hs.le

lemma Vec.length_pos_y_axis (s : ℝ) (hs : 0 < s) : (Vec.mk 0 s).length = s := by
  unfold Vec.length
  rw [show (0:ℝ) ^ 2 + s ^ 2 = s ^ 2 by ring]
  exact Real.sqrt_sq hs.le

lemma Vec.length_neg_y_axis (s : ℝ) (hs : 0 < s) : (Vec.mk 0 (-s)).length = s := by
  unfold Vec.length
  rw [show (0:ℝ) ^ 2 + (-s) ^ 2 = s ^ 2 by ring]
  exact Real.sqrt_sq hs.le

lemma Vec.setLength_pos_x_axis (s l : ℝ) (hs : 0 < s) :
    (Vec.mk s 0).setLength l = ⟨l, 0⟩ := by
  rw [Vec.setLength_of_ne _ _ (by rw [Vec.length_pos_x_axis s hs]; exact ne_of_gt hs),
    Vec.length_pos_x_axis s hs, Vec.smul_mk, div_mul_cancel₀ _ (ne_of_gt hs)]
  norm_num

lemma Vec.setLength_neg_x_axis (s l : ℝ) (hs : 0 < s) :
    (Vec.mk (-s) 0).setLength l = ⟨-l, 0⟩ := by
  rw [Vec.setLength_of_ne _ _ (by rw [Vec.length_neg_x_axis s hs]; exact ne_of_gt hs),
    Vec.length_neg_x_axis s hs, Vec.smul_mk]
  rw [show l / s * -s = -l by field_simp]
  norm_num

lemma Vec.setLength_pos_y_axis (s l : ℝ) (hs : 0 < s) :
    (Vec.mk 0 s).setLength l = ⟨0, l⟩ := by
  rw [Vec.setLength_of_ne _ _ (by rw [Vec.length_pos_y_axis s hs]; exact ne_of_gt hs),
    Vec.length_pos_y_axis s hs, Vec.smul_mk, div_mul_cancel₀ _ (ne_of_gt hs)]
  norm_num

lemma Vec.setLength_neg_y_axis (s l : ℝ) (hs : 0 < s) :
    (Vec.mk 0 (-s)).setLength l = ⟨0, -l⟩ := by
  rw [Vec.setLength_of_ne _ _ (by rw [Vec.length_neg_y_axis s hs]; exact ne_of_gt hs),
    Vec.length_neg_y_axis s hs, Vec.smul_mk]
  rw [show l / s * -s = -l by field_simp]
  norm_num

lemma Vec.rotate_neg_half_pi (v : Vec) : v.rotate (-(π / 2)) = ⟨v.y, -v.x⟩ := by
  unfold Vec.rotate
  rw [Real.cos_neg, Real.sin_neg, Real.cos_pi_div_two, Real.sin_pi_div_two]
  ext <;> simp

/-- Blob state refuting the unamended claim C4: the rest layout of a
four-point blob of radius `100` (the adjacent gaps `100·√2` are below the
chord length `50π`, but the dilation step stretches them beyond it). -/
def blob4 : Blob 4 :=
  ⟨100, 10000 * π, 200 * π, 50 * π, fun i =>
    if i = 0 then ⟨⟨5000, 4900⟩, ⟨5000, 4900⟩, 0, 0⟩
    else if i = 1 then ⟨⟨5100, 5000⟩, ⟨5100, 5000⟩, 0, 0⟩
    else if i = 2 then ⟨⟨5000, 5100⟩, ⟨5000, 5100⟩, 0, 0⟩
    else ⟨⟨4900, 5000⟩, ⟨4900, 5000⟩, 0, 0⟩⟩

/-- The `blob4` ring after the Verlet/gravity step. -/
def pts4g : Fin 4 → BlobPoint := fun i =>
  if i = 0 then ⟨⟨5000, 4901⟩, ⟨5000, 4900⟩, 0, 0⟩
  else if i = 1 then ⟨⟨5100, 5001⟩, ⟨5100, 5000⟩, 0, 0⟩
  else if i = 2 then ⟨⟨5000, 5101⟩, ⟨5000, 5100⟩, 0, 0⟩
  else ⟨⟨4900, 5001⟩, ⟨4900, 5000⟩, 0, 0⟩

lemma pts4g_0 : pts4g 0 = ⟨⟨5000, 4901⟩, ⟨5000, 4900⟩, 0, 0⟩ := by
  simp [pts4g]

lemma pts4g_1 : pts4g 1 = ⟨⟨5100, 5001⟩, ⟨5100, 5000⟩, 0, 0⟩ := by
  simp [pts4g]

lemma pts4g_2 : pts4g 2 = ⟨⟨5000, 5101⟩, ⟨5000, 5100⟩, 0, 0⟩ := by
  simp [pts4g]

lemma pts4g_3 : pts4g 3 = ⟨⟨4900, 5001⟩, ⟨4900, 5000⟩, 0, 0⟩ := by
  simp [pts4g]

lemma blob4_pts0 :
    (fun j => ((blob4.points j).verletIntegrate 0.99).applyGravity 1) = pts4g := by
  funext j
  fin_cases j <;>
    · simp [blob4, pts4g, BlobPoint.verletIntegrate, BlobPoint.applyGravity]
      norm_num

lemma sqrt20000_le_chord : Real.sqrt 20000 ≤ 50 * π := by
  have hp := Real.pi_gt_d6
  have h : Real.sqrt 20000 < 50 * π := by
    rw [Real.sqrt_lt' (by positivity)]
    nlinarith [hp, sq_nonneg (π - 3.141592)]
  exact h.le

lemma distancePass_pts4g : distancePass (50 * π) pts4g = pts4g := by
  unfold distancePass
  rw [show List.finRange 4 = [0, 1, 2, 3] by decide]
  simp only [List.foldl_cons, List.foldl_nil]
  have h0 : distanceConstraintPair (50 * π) pts4g 0 = pts4g := by
    simp only [distanceConstraintPair]
    rw [if_neg]
    rw [show ((0:Fin 4) + 1) = 1 by decide, pts4g_0, pts4g_1]
    rw [show (Vec.mk (5100:ℝ) 5001) - ⟨5000, 4901⟩ = ⟨100, 100⟩ by
      rw [Vec.sub_mk]; norm_num]
    rw [show (Vec.mk (100:ℝ) 100).length = Real.sqrt 20000 by
      unfold Vec.length; norm_num]
    exact not_lt.mpr sqrt20000_le_chord
  have h1 : distanceConstraintPair (50 * π) pts4g 1 = pts4g := by
    simp only [distanceConstraintPair]
    rw [if_neg]
    rw [show ((1:Fin 4) + 1) = 2 by decide, pts4g_1, pts4g_2]
    rw [show (Vec.mk (5000:ℝ) 5101) - ⟨5100, 5001⟩ = ⟨-100, 100⟩ by
      rw [Vec.sub_mk]; norm_num]
    rw [show (Vec.mk (-100:ℝ) 100).length = Real.sqrt 20000 by
      unfold Vec.length; norm_num]
    exact not_lt.mpr sqrt20000_le_chord
  have h2 : distanceConstraintPair (50 * π) pts4g 2 = pts4g := by
    simp only [distanceConstraintPair]
    rw [if_neg]
    rw [show ((2:Fin 4) + 1) = 3 by decide, pts4g_2, pts4g_3]
    rw [show (Vec.mk (4900:ℝ) 5001) - ⟨5000, 5101⟩ = ⟨-100, -100⟩ by
      rw [Vec.sub_mk]; norm_num]
    rw [show (Vec.mk (-100:ℝ) (-100)).length = Real.sqrt 20000 by
      unfold Vec.length; norm_num]
    exact not_lt.mpr sqrt20000_le_chord
  have h3 : distanceConstraintPair (50 * π) pts4g 3 = pts4g := by
    simp only [distanceConstraintPair]
    rw [if_neg]
    rw [show ((3:Fin 4) + 1) = 0 by decide, pts4g_3, pts4g_0]
    rw [show (Vec.mk (5000:ℝ) 4901) - ⟨4900, 5001⟩ = ⟨100, -100⟩ by
      rw [Vec.sub_mk]; norm_num]
    rw [show (Vec.mk (100:ℝ) (-100)).length = Real.sqrt 20000 by
      unfold Vec.length; norm_num]
    exact not_lt.mpr sqrt20000_le_chord
  rw [h0, h1, h2, h3]

lemma getArea_pts4g : getArea pts4g = 20000 := by
  unfold getArea
  rw [Fin.sum_univ_four]
  rw [show ((0:Fin 4) + 1) = 1 by decide, show ((1:Fin 4) + 1) = 2 by decide,
    show ((2:Fin 4) + 1) = 3 by decide, show ((3:Fin 4) + 1) = 0 by decide,
    pts4g_0, pts4g_1, pts4g_2, pts4g_3]
  norm_num

lemma blob4_offset : (blob4.area - getArea pts4g) / blob4.circumference
    = 50 - 100 / π := by
  rw [getArea_pts4g, show blob4.area = 10000 * π from rfl,
    show blob4.circumference = 200 * π from rfl]
  have hπ := Real.pi_ne_zero
  field_simp
  ring

lemma BlobPoint.applyDisplacement_accum (p : BlobPoint) (v : Vec)
    (h : p.displacement = 0) (hw : p.displacementWeight = 0) :
    (p.accumulateDisplacement v).applyDisplacement = { p with pos := p.pos + v } := by
  unfold BlobPoint.accumulateDisplacement BlobPoint.applyDisplacement
  rw [if_pos (by simp)]
  have hz : ((1 : ℝ) / ((p.displacementWeight + 1 : ℕ) : ℝ)) • (p.displacement + v)
      = v := by
    rw [h, hw]
    ext <;> simp
  simp only [hz]
  rw [h, hw]

lemma dil4_at0 : dilationPass blob4.area blob4.circumference pts4g 0
    = (pts4g 0).accumulateDisplacement ⟨0, -(50 - 100 / π)⟩ := by
  simp only [dilationPass]
  rw [blob4_offset]
  rw [show List.finRange 4 = [0, 1, 2, 3] by decide]
  simp only [List.foldl_cons, List.foldl_nil]
  rw [Function.update_noteq (by decide), Function.update_noteq (by decide),
    Function.update_noteq (by decide), Function.update_same]
  rw [show ((0:Fin 4) - 1) = 3 by decide, show ((0:Fin 4) + 1) = 1 by decide,
    pts4g_3, pts4g_1]
  unfold dilationNormal
  rw [show (BlobPoint.mk ⟨5100, 5001⟩ ⟨5100, 5000⟩ 0 0).pos
      - (BlobPoint.mk ⟨4900, 5001⟩ ⟨4900, 5000⟩ 0 0).pos = Vec.mk 200 0 by
    show (Vec.mk (5100:ℝ) 5001) - ⟨4900, 5001⟩ = _
    rw [Vec.sub_mk]; norm_num]
  rw [Vec.rotate_neg_half_pi]
  rw [show (Vec.mk ((Vec.mk (200:ℝ) 0).y) (-(Vec.mk (200:ℝ) 0).x))
      = Vec.mk 0 (-(200:ℝ)) by norm_num]
  rw [Vec.setLength_neg_y_axis 200 _ (by norm_num)]

lemma dil4_at1 : dilationPass blob4.area blob4.circumference pts4g 1
    = (pts4g 1).accumulateDisplacement ⟨50 - 100 / π, 0⟩ := by
  simp only [dilationPass]
  rw [blob4_offset]
  rw [show List.finRange 4 = [0, 1, 2, 3] by decide]
  simp only [List.foldl_cons, List.foldl_nil]
  rw [Function.update_noteq (by decide), Function.update_noteq (by decide),
    Function.update_same]
  rw [show ((1:Fin 4) - 1) = 0 by decide, show ((1:Fin 4) + 1) = 2 by decide]
  rw [Function.update_noteq (by decide), Function.update_same,
    Function.update_noteq (by decide)]
  rw [BlobPoint.accumulateDisplacement_pos, pts4g_0, pts4g_1, pts4g_2]
  unfold dilationNormal
  rw [show (BlobPoint.mk ⟨5000, 5101⟩ ⟨5000, 5100⟩ 0 0).pos
      - (BlobPoint.mk ⟨5000, 4901⟩ ⟨5000, 4900⟩ 0 0).pos = Vec.mk 0 200 by
    show (Vec.mk (5000:ℝ) 5101) - ⟨5000, 4901⟩ = _
    rw [Vec.sub_mk]; norm_num]
  rw [Vec.rotate_neg_half_pi]
  rw [show (Vec.mk ((Vec.mk (0:ℝ) 200).y) (-(Vec.mk (0:ℝ) 200).x))
      = Vec.mk (200:ℝ) 0 by norm_num]
  rw [Vec.setLength_pos_x_axis 200 _ (by norm_num)]

lemma pi_bounds_aux : 0 < 50 - 100 / π ∧ 100 / π < 50 := by
  have hp := Real.pi_gt_d6
  have h2 : (2:ℝ) < π := by nlinarith
  have h : 100 / π < 50 := by
    rw [div_lt_iff₀ Real.pi_pos]
    nlinarith
  exact ⟨by linarith, h⟩

lemma blob4_final_pos0 :
    ((blob4.update 10000 10000 none 1).points 0).pos
      = ⟨5000, 4901 - (50 - 100 / π)⟩ := by
  obtain ⟨hδ0, hδ50⟩ := pi_bounds_aux
  have hδpos : 0 < 100 / π := by positivity
  rw [show (1:ℕ) = 0 + 1 from rfl, Blob.update_points_succ]
  rw [show Nat.iterate (blob4.iterationStep 10000 10000 none) 0
      (fun j => ((blob4.points j).verletIntegrate 0.99).applyGravity 1)
      = (fun j => ((blob4.points j).verletIntegrate 0.99).applyGravity 1) from rfl]
  rw [blob4_pts0, Blob.iterationStep_apply]
  rw [show blob4.chordLength = 50 * π from rfl]
  rw [distancePass_pts4g, dil4_at0, pts4g_0,
    BlobPoint.applyDisplacement_accum _ _ rfl rfl]
  rw [BlobPoint.keepInBounds_id_inBox _ _ _ ?_, BlobPoint.collideWithPointer_none]
  · show (Vec.mk (5000:ℝ) 4901) + ⟨0, -(50 - 100 / π)⟩ = _
    rw [Vec.add_mk]
    congr 1
    ring
  · show inBox 10000 10000 ((Vec.mk (5000:ℝ) 4901) + ⟨0, -(50 - 100 / π)⟩)
    rw [Vec.add_mk]
    exact ⟨by norm_num, by norm_num, by norm_num; linarith, by norm_num; linarith⟩

lemma blob4_final_pos1 :
    ((blob4.update 10000 10000 none 1).points 1).pos
      = ⟨5100 + (50 - 100 / π), 5001⟩ := by
  obtain ⟨hδ0, hδ50⟩ := pi_bounds_aux
  have hδpos : 0 < 100 / π := by positivity
  rw [show (1:ℕ) = 0 + 1 from rfl, Blob.update_points_succ]
  rw [show Nat.iterate (blob4.iterationStep 10000 10000 none) 0
      (fun j => ((blob4.points j).verletIntegrate 0.99).applyGravity 1)
      = (fun j => ((blob4.points j).verletIntegrate 0.99).applyGravity 1) from rfl]
  rw [blob4_pts0, Blob.iterationStep_apply]
  rw [show blob4.chordLength = 50 * π from rfl]
  rw [distancePass_pts4g, dil4_at1, pts4g_1,
    BlobPoint.applyDisplacement_accum _ _ rfl rfl]
  rw [BlobPoint.keepInBounds_id_inBox _ _ _ ?_, BlobPoint.collideWithPointer_none]
  · show (Vec.mk (5100:ℝ) 5001) + ⟨50 - 100 / π, 0⟩ = _
    rw [Vec.add_mk]
    norm_num
  · show inBox 10000 10000 ((Vec.mk (5100:ℝ) 5001) + ⟨50 - 100 / π, 0⟩)
    rw [Vec.add_mk]
    exact ⟨by norm_num; linarith, by norm_num; linarith, by norm_num, by norm_num⟩

lemma blob4_gap :
    blob4.chordLength + 1 <
      Vec.dist ((blob4.update 10000 10000 none 1).points 0).pos
        ((blob4.update 10000 10000 none 1).points 1).pos := by
  rw [blob4_final_pos0, blob4_final_pos1, show blob4.chordLength = 50 * π from rfl]
  unfold Vec.dist
  rw [show (Vec.mk (5000:ℝ) (4901 - (50 - 100 / π))).x = 5000 from rfl,
    show (Vec.mk (5000:ℝ) (4901 - (50 - 100 / π))).y = 4901 - (50 - 100 / π) from rfl,
    show (Vec.mk (5100 + (50 - 100 / π)) (5001:ℝ)).x = 5100 + (50 - 100 / π) from rfl,
    show (Vec.mk (5100 + (50 - 100 / π)) (5001:ℝ)).y = 5001 from rfl]
  rw [show (5000 - (5100 + (50 - 100 / π))) ^ 2
      + (4901 - (50 - 100 / π) - 5001) ^ 2 = 2 * (150 - 100 / π) ^ 2 by ring]
  rw [show (50 * π + 1 : ℝ) = 50 * π + 1 from rfl]
  apply (Real.lt_sqrt (by positivity)).mpr
  have hp1 := Real.pi_gt_d6
  have hp2 := Real.pi_lt_d6
  have ha : 100 / π < 31.84 := by
    rw [div_lt_iff₀ Real.pi_pos]
    nlinarith
  have hb : (118.16:ℝ) < 150 - 100 / π := by linarith
  have h50 : 50 * π + 1 < 158.08 := by nlinarith
  have h1 : (50 * π + 1) ^ 2 < 158.08 ^ 2 := by
    nlinarith [Real.pi_pos]
  have h2 : (118.16:ℝ) ^ 2 < (150 - 100 / π) ^ 2 := by
    nlinarith
  nlinarith [h1, h2]

lemma blob4_p0 : blob4.points 0 = ⟨⟨5000, 4900⟩, ⟨5000, 4900⟩, 0, 0⟩ := by
  simp [blob4]

lemma blob4_p1 : blob4.points 1 = ⟨⟨5100, 5000⟩, ⟨5100, 5000⟩, 0, 0⟩ := by
  simp [blob4]

lemma blob4_p2 : blob4.points 2 = ⟨⟨5000, 5100⟩, ⟨5000, 5100⟩, 0, 0⟩ := by
  simp [blob4]

lemma blob4_p3 : blob4.points 3 = ⟨⟨4900, 5000⟩, ⟨4900, 5000⟩, 0, 0⟩ := by
  simp [blob4]

lemma construct4_p0 : (Blob.construct ⟨5000, 5000⟩ 4 100 1).points 0
    = ⟨⟨5000, 4900⟩, ⟨5000, 4900⟩, 0, 0⟩ := by
  simp only [Blob.construct]
  rw [show (((0 : Fin 4) : ℕ) : ℝ) = 0 by
    rw [show ((0 : Fin 4) : ℕ) = 0 from rfl]; norm_num]
  rw [show π * 2 * 0 / ((4:ℕ):ℝ) - π / 2 = -(π / 2) by push_cast; ring]
  rw [Real.cos_neg, Real.sin_neg, Real.cos_pi_div_two, Real.sin_pi_div_two]
  norm_num

lemma construct4_p1 : (Blob.construct ⟨5000, 5000⟩ 4 100 1).points 1
    = ⟨⟨5100, 5000⟩, ⟨5100, 5000⟩, 0, 0⟩ := by
  simp only [Blob.construct]
  rw [show (((1 : Fin 4) : ℕ) : ℝ) = 1 by
    rw [show ((1 : Fin 4) : ℕ) = 1 from rfl]; norm_num]
  rw [show π * 2 * 1 / ((4:ℕ):ℝ) - π / 2 = 0 by push_cast; ring]
  rw [Real.cos_zero, Real.sin_zero]
  norm_num

lemma construct4_p2 : (Blob.construct ⟨5000, 5000⟩ 4 100 1).points 2
    = ⟨⟨5000, 5100⟩, ⟨5000, 5100⟩, 0, 0⟩ := by
  simp only [Blob.construct]
  rw [show (((2 : Fin 4) : ℕ) : ℝ) = 2 by
    rw [show ((2 : Fin 4) : ℕ) = 2 from rfl]; norm_num]
  rw [show π * 2 * 2 / ((4:ℕ):ℝ) - π / 2 = π / 2 by push_cast; ring]
  rw [Real.cos_pi_div_two, Real.sin_pi_div_two]
  norm_num

lemma construct4_p3 : (Blob.construct ⟨5000, 5000⟩ 4 100 1).points 3
    = ⟨⟨4900, 5000⟩, ⟨4900, 5000⟩, 0, 0⟩ := by
  simp only [Blob.construct]
  rw [show (((3 : Fin 4) : ℕ) : ℝ) = 3 by
    rw [show ((3 : Fin 4) : ℕ) = 3 from rfl]; norm_num]
  rw [show π * 2 * 3 / ((4:ℕ):ℝ) - π / 2 = π by push_cast; ring]
  rw [Real.cos_pi, Real.sin_pi]
  norm_num

/-- Value `blob4` is exactly the freshly constructed four-point blob of radius
`100` and puffiness `1` centred at `(5000, 5000)`. -/
lemma blob4_eq_construct : Blob.construct ⟨5000, 5000⟩ 4 100 1 = blob4 := by
  refine Blob.ext ?_ ?_ ?_ ?_ ?_
  · rfl
  · show (100:ℝ) * 100 * π * 1 = 10000 * π
    ring
  · show (100:ℝ) * π * 2 = 200 * π
    ring
  · show (100:ℝ) * π * 2 / ((4:ℕ):ℝ) = 50 * π
    push_cast
    ring
  · funext i
    fin_cases i
    · show (Blob.construct ⟨5000, 5000⟩ 4 100 1).points 0 = blob4.points 0
      rw [construct4_p0, blob4_p0]
    · show (Blob.construct ⟨5000, 5000⟩ 4 100 1).points 1 = blob4.points 1
      rw [construct4_p1, blob4_p1]
    · show (Blob.construct ⟨5000, 5000⟩ 4 100 1).points 2 = blob4.points 2
      rw [construct4_p2, blob4_p2]
    · show (Blob.construct ⟨5000, 5000⟩ 4 100 1).points 3 = blob4.points 3
      rw [construct4_p3, blob4_p3]

/-- Counterexample to claim C4 as stated: starting from the rest layout of a
freshly constructed four-point blob of radius `100` in a huge world with no
pointer, a single `update` iteration (the dilation step inflates the square
toward the rest area) leaves the adjacent pair `(0, 1)` at distance more
than `chordLength + 1` — far beyond any floating-point tolerance. -/
theorem claim4_counterexample :
    (Blob.construct ⟨5000, 5000⟩ 4 100 1).chordLength + 1 <
      Vec.dist
        (((Blob.construct ⟨5000, 5000⟩ 4 100 1).update 10000 10000 none 1).points
          0).pos
        (((Blob.construct ⟨5000, 5000⟩ 4 100 1).update 10000 10000 none 1).points
          1).pos := by
  rw [blob4_eq_construct]
  exact blob4_gap
